import Mathlib

/-!
Shallow embedding of the timestamp-reconciliation core of
`spikegadgets_to_nwb` (file `convert_position.py`), together with
theorems checking the natural-language specification against it.

Conventions of the embedding:
* numpy 1-D arrays become `List` of exact numbers (`ℚ` for time values,
  `ℤ` for frame counts, `ℕ` for labels); float literals such as `0.4`
  are embedded as the rationals they denote in the source text;
* fallible code (numpy `IndexError`, explicit `raise ValueError`)
  becomes `Except String`;
* external-library calls (`scipy.ndimage.label`, `np.unwrap`,
  `np.unique`, `np.median`, pandas `groupby(...).first()`) are modelled
  by their documented behaviour on the 1-D inputs the source feeds them.
-/

set_option maxRecDepth 4000

namespace SpikeGadgets

instance {ε α : Type} [DecidableEq ε] [DecidableEq α] :
    DecidableEq (Except ε α) := fun a b =>
  match a, b with
  | .ok a, .ok b =>
      if h : a = b then .isTrue (by rw [h]) else .isFalse (by simp [h])
  | .error a, .error b =>
      if h : a = b then .isTrue (by rw [h]) else .isFalse (by simp [h])
  | .ok _, .error _ => .isFalse (by simp)
  | .error _, .ok _ => .isFalse (by simp)

/-- `NANOSECONDS_PER_SECOND = 1e9`. -/
def nsPerSec : ℚ := 1000000000

/-! ### Basic numpy helpers -/

/-- `np.diff` for a 1-D array: successive differences `a[i+1] - a[i]`. -/
def npDiff (xs : List ℚ) : List ℚ :=
  List.zipWith (fun a b => b - a) xs xs.tail

/-- `np.median` for a 1-D array: middle element of the sorted array for
odd length, mean of the two middle elements for even length. -/
def npMedian (xs : List ℚ) : ℚ :=
  let s := xs.insertionSort (· ≤ ·)
  let n := xs.length
  if n % 2 = 1 then s.getD (n / 2) 0
  else (s.getD (n / 2 - 1) 0 + s.getD (n / 2) 0) / 2

/-! ### `detect_repeat_timestamps` (source lines 209-223)

`np.insert(timestamps[:-1] >= timestamps[1:], 0, False)`: element 0 is
`False` and element `i+1` records `timestamps[i] >= timestamps[i+1]`.
On an empty input `np.insert` still prepends the scalar, producing the
one-element array `[False]`. -/

def detect_repeat_timestamps (ts : List ℚ) : List Bool :=
  false :: List.zipWith (fun a b => decide (b ≤ a)) ts ts.tail

/-! ### `estimate_camera_to_mcu_lag` (source lines 307-321)

If `n_breaks == 0` the dio array is truncated to the camera array's
length and the median element-wise difference is returned, otherwise
the first-sample difference. At the single call site (line 560-562)
the argument passed for `n_breaks` is `len(non_repeat_timestamp_labels_id)`,
the number of surviving segments. -/

def estimate_camera_to_mcu_lag (camera_systime dio_systime : List ℚ)
    (n_breaks : ℕ) : ℚ :=
  if n_breaks = 0 then
    npMedian (List.zipWith (fun c d => c - d) camera_systime
      (dio_systime.take camera_systime.length))
  else
    camera_systime.getD 0 0 - dio_systime.getD 0 0

/-- The lag computation as wired at the call site in
`get_position_timestamps` (line 560-562): the `n_breaks` argument is
the *number of surviving segment ids*. -/
def lag_at_call_site (camera_systime dio_systime : List ℚ)
    (non_repeat_timestamp_labels_id : List ℕ) : ℚ :=
  estimate_camera_to_mcu_lag camera_systime dio_systime
    non_repeat_timestamp_labels_id.length

/-! ### `find_acquisition_timing_pause` (source lines 139-177)

Successive differences of the first `n_search` samples (converted from
nanoseconds to seconds), first index whose difference lies strictly
inside `(min_duration, max_duration)`; `nonzero(...)[0][0]` raises
`IndexError` when no difference qualifies. The returned value is
`timestamps[i] + (timestamps[i+1] - timestamps[i]) // 2` on the
original nanosecond values, `//` being Python floor division. -/

def find_acquisition_timing_pause (timestamps : List ℚ)
    (min_duration : ℚ := 2/5) (max_duration : ℚ := 1)
    (n_search : ℕ := 100) : Except String ℚ :=
  match (npDiff ((timestamps.take n_search).map (· / nsPerSec))).findIdx?
      (fun d => decide (min_duration < d) && decide (d < max_duration)) with
  | none => .error "IndexError"
  | some i =>
      .ok (timestamps.getD i 0 +
        (⌊(timestamps.getD (i + 1) 0 - timestamps.getD i 0) / 2⌋ : ℤ))

/-! ### `np.unwrap` on integer input (used at source lines 449-453)

`get_position_timestamps` calls
`np.unwrap(frame_counts.astype(np.int32), period=np.iinfo(np.uint16).max)`,
i.e. with the integer period `65535`. Model of numpy's `unwrap` for a
1-D integer array with integer period: with
`interval_high = period // 2`, each successive difference `d` is mapped
to `ddmod = ((d + interval_high) mod period) - interval_high` (for odd
`period` the boundary is unambiguous), the correction `ddmod - d` is
zeroed whenever `|d| < period / 2`, and corrections are accumulated
onto the tail of the array. -/

def npUnwrapCorrection (period d : ℤ) : ℤ :=
  let interval_high := period / 2
  let ddmod := (d + interval_high) % period - interval_high
  if 2 * (d.natAbs : ℤ) < period then 0 else ddmod - d

def npUnwrapInt (p : List ℤ) (period : ℤ) : List ℤ :=
  let dd := List.zipWith (fun a b => b - a) p p.tail
  let cumulative := (dd.map (npUnwrapCorrection period)).scanl (· + ·) 0
  List.zipWith (· + ·) p cumulative

/-- The unwrap step exactly as called in `get_position_timestamps`
(line 450-453): period is `np.iinfo(np.uint16).max = 65535`. -/
def unwrapHWframeCount (frame_count : List ℤ) : List ℤ :=
  npUnwrapInt frame_count 65535

/-! ### Specification-level predicate for the pause gap (claim C6) -/

/-- Position `i` of the timestamp array carries a qualifying pause gap:
it lies among the successive differences of the first `n_search`
samples and its duration in seconds is strictly between the two
duration bounds. -/
def gapQualifies (ts : List ℚ) (min_duration max_duration : ℚ)
    (n_search i : ℕ) : Prop :=
  i + 1 < min n_search ts.length ∧
  min_duration < (ts.getD (i + 1) 0 - ts.getD i 0) / nsPerSec ∧
  (ts.getD (i + 1) 0 - ts.getD i 0) / nsPerSec < max_duration

/-! ### The precision-clock (PTP) branch of `get_position_timestamps`
(source lines 493-516)

`ptp_systime = HWTimestamp`; the index becomes
`ptp_systime / NANOSECONDS_PER_SECOND`; then
`pause_mid_ind = nonzero(logical_and(diff(index[:100]) > 0.4,
diff(index[:100]) < 2.0))[0][0] + 1` and the table is sliced with
`iloc[pause_mid_ind:]`. The uncaught `IndexError` from `[0][0]`
propagates when no difference qualifies. Only the time index is
tracked here; rows travel with their index entry. -/

def ptp_get_position_timestamps (hwTimestamp : List ℚ) :
    Except String (List ℚ) :=
  match (npDiff (((hwTimestamp.map (· / nsPerSec)).take 100))).findIdx?
      (fun d => decide ((2/5 : ℚ) < d) && decide (d < 2)) with
  | none => .error "IndexError"
  | some i => .ok ((hwTimestamp.map (· / nsPerSec)).drop (i + 1))

/-- Modelled from the claim's words, for comparison: the same
precision-clock trimming but locating the pause with the 4.2 default
window `(0.4, 1.0)` seconds instead of the code's `(0.4, 2.0)`. -/
def ptp_get_position_timestamps_claimed (hwTimestamp : List ℚ) :
    Except String (List ℚ) :=
  match (npDiff (((hwTimestamp.map (· / nsPerSec)).take 100))).findIdx?
      (fun d => decide ((2/5 : ℚ) < d) && decide (d < 1)) with
  | none => .error "IndexError"
  | some i => .ok ((hwTimestamp.map (· / nsPerSec)).drop (i + 1))

/-! ### The fallback pause step of `get_position_timestamps`
(source lines 517-534)

`try: pause_mid_time = find_acquisition_timing_pause(dio * 1e9) / 1e9;
frame_rate_from_dio = ...; logger.info(...) except IndexError:
pause_mid_time = -1`. The result is paired with the list of log
messages the step emits (the `except` branch emits none). -/

def fallback_pause_step (dio_camera_timestamps : List ℚ) :
    ℚ × List String :=
  match find_acquisition_timing_pause
      (dio_camera_timestamps.map (· * nsPerSec)) (2/5) 1 100 with
  | .ok p =>
      (p / nsPerSec, ["Camera frame rate estimated from DIO camera ticks"])
  | .error _ => (-1, [])

/-- numpy boolean masking `xs[mask]`. -/
def selectMask {α : Type} (xs : List α) (mask : List Bool) : List α :=
  ((xs.zip mask).filter (fun p => p.2)).map (fun p => p.1)

/-- numpy boolean-mask assignment `mask[mask] = newvals`: each `true`
position of `mask` is replaced by the next value of `newvals`. -/
def scatterMask : List Bool → List Bool → List Bool
  | [], _ => []
  | false :: m, vs => false :: scatterMask m vs
  | true :: m, [] => true :: scatterMask m []
  | true :: m, v :: vs => v :: scatterMask m vs

/-- `remove_acquisition_timing_pause_non_ptp` (source lines 324-365). -/
def remove_acquisition_timing_pause_non_ptp (dio_systime : List ℚ)
    (frame_count : List ℤ) (camera_systime : List ℚ)
    (is_valid_camera_time : List Bool) (pause_mid_time : ℚ) :
    List ℚ × List ℤ × List Bool × List ℚ :=
  let keep := camera_systime.map (fun t => decide (pause_mid_time < t))
  (dio_systime.filter (fun t => decide (pause_mid_time < t)),
   selectMask (selectMask frame_count is_valid_camera_time) keep,
   scatterMask is_valid_camera_time keep,
   camera_systime.filter (fun t => decide (pause_mid_time < t)))

/-! ### Camera DIO channel resolution (source lines 380-403, 583-631)

A DIO channel is a named timestamp series from the behavioural-events
registry; a channel is a camera-pulse candidate when its name contains
the marker substring `"camera ticks"` (Python `in`). -/

structure DioChannel where
  name : String
  timestamps : List ℚ
deriving DecidableEq

/-- Python substring containment `pat in hay`. -/
def strContainsSub (hay pat : String) : Bool :=
  (List.range (hay.data.length + 1)).any
    (fun i => pat.data.isPrefixOf (hay.data.drop i))

/-- The channels whose name contains `"camera ticks"` (the list
comprehension shared by both resolvers). -/
def cameraMatches (channels : List DioChannel) : List DioChannel :=
  channels.filter (fun c => strContainsSub c.name "camera ticks")

/-- `find_camera_dio_channel` (source lines 380-403): ambiguity error
when more than one channel matches, not-found error when none does,
otherwise the single matching channel's full timestamp array. -/
def find_camera_dio_channel (channels : List DioChannel) :
    Except String (List ℚ) :=
  if 1 < (cameraMatches channels).length then
    .error "Multiple camera dio channels found by name. Not implemented for multiple cameras without PTP yet."
  else if (cameraMatches channels).length = 0 then
    .error "No camera dio channel found by name. Check metadata YAML. Name must contain 'camera ticks'"
  else .ok ((cameraMatches channels).getD 0 ⟨"", []⟩).timestamps

/-- The in-bounds restriction
`dio_camera_timestamps[(>= epoch_start) & (<= epoch_end)]`. -/
def epochTicks (c : DioChannel) (epoch_start epoch_end : ℚ) : List ℚ :=
  c.timestamps.filter
    (fun t => decide (epoch_start ≤ t) && decide (t ≤ epoch_end))

/-- The `for camera in dio_camera_list` loop of
`find_camera_dio_channel_per_epoch`: return the in-bounds timestamps
of the first channel with more than 100 in-bounds ticks, else the
insufficient-ticks error after the loop. -/
def firstSufficient : List DioChannel → ℚ → ℚ → Except String (List ℚ)
  | [], _, _ => .error "No camera dio has sufficient ticks for this epoch"
  | c :: rest, s, e =>
    if 100 < (epochTicks c s e).length then .ok (epochTicks c s e)
    else firstSufficient rest s e

/-- `find_camera_dio_channel_per_epoch` (source lines 583-631). -/
def find_camera_dio_channel_per_epoch (channels : List DioChannel)
    (epoch_start epoch_end : ℚ) : Except String (List ℚ) :=
  if (cameraMatches channels).isEmpty then
    .error "No camera dio channel found by name. Check metadata YAML. Name must contain 'camera ticks'"
  else firstSufficient (cameraMatches channels) epoch_start epoch_end

/-! ### Per-epoch tracking/timestamps filepath resolution in
`add_position` (source lines 703-731)

Per epoch the code runs, inside one `try`:
`position_tracking_filepath = <first .videoPositionTracking row>[0]`,
then `position_timestamps_filepath = <matching .cameraHWSync row>[0]`;
`except IndexError:` sets only `position_tracking_filepath = None`.
The local `position_timestamps_filepath` is assigned nowhere else, so
after a failed lookup it keeps the value from the *previous* loop
iteration, and on the first iteration it is unbound
(`UnboundLocalError` when read). `trackingLookup`/`hwSyncLookup`
model the outcome the two indexing expressions would produce
(`none` = `IndexError`). -/

structure EpochFiles where
  trackingLookup : Option String
  hwSyncLookup : Option String
deriving DecidableEq

/-- One iteration of the filepath-resolution `try/except`: returns the
pair (`position_tracking_filepath`,
new value of the `position_timestamps_filepath` local). -/
def resolveEpochFilepaths (prev : Option String) (e : EpochFiles) :
    Option String × Option String :=
  match e.trackingLookup with
  | none => (none, prev)
  | some t =>
    match e.hwSyncLookup with
    | none => (none, prev)
    | some h => (some t, some h)

/-- The epoch loop of `add_position`, restricted to filepath
resolution: for each epoch, the tracking filepath the code ends up
with and the timestamps filepath it goes on to read
(`UnboundLocalError` when the local was never assigned). -/
def processEpochsFilepaths :
    Option String → List EpochFiles → List (Option String × Except String String)
  | _, [] => []
  | prev, e :: rest =>
    let r := resolveEpochFilepaths prev e
    (r.1, match r.2 with
          | none => .error "UnboundLocalError"
          | some h => .ok h) :: processEpochsFilepaths r.2 rest

/-! ### `linregress` and the fallback assembly tail of
`get_position_timestamps` (source lines 368-377 and 563-580)

`scipy.stats.linregress` ordinary least squares in exact arithmetic;
`correct_timestamps_for_camera_to_mcu_lag` evaluates
`intercept + frame_count * slope` on `linregress(frame_count,
camera_systime - lag)`. -/

def linregress (x y : List ℚ) : ℚ × ℚ :=
  let n : ℚ := x.length
  let sx := x.sum
  let sy := y.sum
  let sxy := (List.zipWith (· * ·) x y).sum
  let sxx := (x.map (fun v => v * v)).sum
  let slope := (n * sxy - sx * sy) / (n * sxx - sx * sx)
  (slope, (sy - slope * sx) / n)

def correct_timestamps_for_camera_to_mcu_lag
    (frame_count camera_systime : List ℚ) (camera_to_mcu_lag : ℚ) :
    List ℚ :=
  let r := linregress frame_count
    (camera_systime.map (· - camera_to_mcu_lag))
  frame_count.map (fun f => r.2 + f * r.1)

/-- The `for id in non_repeat_timestamp_labels_id` loop (source lines
563-573): per-segment corrected times concatenated in the given
segment-id order (`is_chunk` selects the rows whose label equals
`id`). -/
def concatCorrected (ids : List ℕ) (labels : List ℕ)
    (frame_count camera_systime : List ℚ) (lag : ℚ) : List ℚ :=
  (ids.map (fun id =>
    correct_timestamps_for_camera_to_mcu_lag
      (selectMask frame_count (labels.map (fun l => decide (l = id))))
      (selectMask camera_systime (labels.map (fun l => decide (l = id))))
      lag)).flatten

/-- pandas `df.groupby(df.index).first()` (source lines 578-580):
group keys are sorted; for each key the first matching row is kept.
(`.first()` takes the first non-NA entry per column, which on rows
without missing entries is the first row; rows are modelled as opaque
payloads.) -/
def groupbyFirst {α : Type} (table : List (ℚ × α)) : List (ℚ × α) :=
  (((table.map Prod.fst).dedup).insertionSort (· ≤ ·)).filterMap
    (fun k => (table.find? (fun q => decide (q.1 = k))).map
      (fun q => (k, q.2)))

/-- The tail of the fallback path (source lines 563-580):
`video_timestamps.set_index(pd.Index(corrected_camera_systime))`
followed by `groupby(index).first()`. Setting the index is positional:
the i-th concatenated corrected time becomes the key of the i-th row. -/
def fallback_assemble {α : Type} (ids : List ℕ) (labels : List ℕ)
    (frame_count camera_systime : List ℚ) (lag : ℚ) (rows : List α) :
    List (ℚ × α) :=
  groupbyFirst
    ((concatCorrected ids labels frame_count camera_systime lag).zip rows)

/-! ### `find_large_frame_jumps` (source lines 180-206) and
`detect_trodes_time_repeats_or_frame_jumps` (source lines 229-280)

`scipy.ndimage.label` on a 1-D boolean array assigns, to every
position of the k-th maximal run of consecutive `True` values (in
left-to-right order), the label `k`, and `0` to every `False`
position; equivalently, a `True` position `i` is labelled with the
number of run starts at indices `≤ i`. `np.unique(..., return_counts=True)`
returns the sorted distinct values with their multiplicities; the
multiplicity test `counts > 2` is expressed directly with
`List.count`. -/

def find_large_frame_jumps (frame_count : List ℤ)
    (min_frame_jump : ℤ := 15) : List Bool :=
  false :: List.zipWith (fun a b => decide (min_frame_jump < b - a))
    frame_count frame_count.tail

/-- `np.logical_or(is_repeat_timestamp, is_large_frame_jump)` with the
default `min_frame_jump = 15` (source lines 255-259). -/
def unionFlags (trodes_time : List ℚ) (frame_count : List ℤ) :
    List Bool :=
  List.zipWith or (detect_repeat_timestamps trodes_time)
    (find_large_frame_jumps frame_count 15)

/-- Whether position `i` starts a maximal run of `True` values. -/
def runStart (xs : List Bool) : ℕ → Bool
  | 0 => xs.getD 0 false
  | i + 1 => xs.getD (i + 1) false && !(xs.getD i false)

/-- Number of run starts at indices `< n`. -/
def runsBefore (xs : List Bool) (n : ℕ) : ℕ :=
  ((List.range n).filter (fun i => runStart xs i)).length

/-- Model of `scipy.ndimage.label(xs)[0]` for 1-D boolean input. -/
def labelRuns (xs : List Bool) : List ℕ :=
  (List.range xs.length).map
    (fun i => if xs.getD i false then runsBefore xs (i + 1) else 0)

/-- `np.unique` (values only): sorted distinct values. -/
def uniqueSorted (l : List ℕ) : List ℕ :=
  l.dedup.insertionSort (· ≤ ·)

/-- The surviving flagged-run labels (source lines 261-269):
`np.unique(repeat_timestamp_labels, return_counts=True)` filtered by
`id != 0 and count > 2`. -/
def survivingRepeatIds (U : List Bool) : List ℕ :=
  (uniqueSorted (labelRuns U)).filter
    (fun id => decide (id ≠ 0) && decide (2 < (labelRuns U).count id))

/-- The flag array after
`is_repeat_timestamp[~isin(repeat_timestamp_labels, ids)] = False`
(source lines 270-272): a position stays flagged exactly when its
flagged-run label is among the surviving ids. -/
def filteredFlags (U : List Bool) : List Bool :=
  (List.range U.length).map
    (fun i => U.getD i false &&
      decide ((labelRuns U).getD i 0 ∈ survivingRepeatIds U))

/-- `detect_trodes_time_repeats_or_frame_jumps` (source lines 229-280):
union the repeat and jump flags, label the flagged runs, keep as
genuine only the labels with multiplicity above 2, clear the flags
outside the kept labels, then label the maximal runs of non-flagged
samples (`label(~is_repeat_timestamp)`) and return the per-sample
labels with the sorted positive labels present. -/
def detect_trodes_time_repeats_or_frame_jumps (trodes_time : List ℚ)
    (frame_count : List ℤ) : List ℕ × List ℕ :=
  let is_repeat := filteredFlags (unionFlags trodes_time frame_count)
  let non_repeat_labels := labelRuns (is_repeat.map (fun b => !b))
  (non_repeat_labels,
   (uniqueSorted non_repeat_labels).filter (fun id => decide (id ≠ 0)))

/-- Specification-side predicate (claim C7): position `i` lies in a
contiguous run of flagged positions whose length exceeds 2, i.e. some
window of three consecutive flagged positions contains `i`. -/
def inLongFlaggedRun (U : List Bool) (i : ℕ) : Prop :=
  ∃ a, a ≤ i ∧ i ≤ a + 2 ∧ U.getD a false = true ∧
    U.getD (a + 1) false = true ∧ U.getD (a + 2) false = true

instance (U : List Bool) (i : ℕ) : Decidable (inLongFlaggedRun U i) :=
  @decidable_of_iff _ _
    (by simp [inLongFlaggedRun, Nat.lt_succ_iff])
    (@Finset.decidableExistsAndFinset ℕ (Finset.range (i + 1))
      (fun a => i ≤ a + 2 ∧ U.getD a false = true ∧
        U.getD (a + 1) false = true ∧ U.getD (a + 2) false = true)
      (fun a => by infer_instance))

lemma npDiff_length (xs : List ℚ) : (npDiff xs).length = xs.length - 1 := by
  simp only [npDiff, List.length_zipWith, List.length_tail]
  omega

lemma npDiff_getD (xs : List ℚ) (i : ℕ) (h : i + 1 < xs.length) :
    (npDiff xs).getD i 0 = xs.getD (i + 1) 0 - xs.getD i 0 := by
  have hl : i < (npDiff xs).length := by rw [npDiff_length]; omega
  have h1 : i + 1 < xs.length := h
  have h0 : i < xs.length := by omega
  have ht : i < xs.tail.length := by simp [List.length_tail]; omega
  rw [List.getD_eq_getElem _ _ hl, List.getD_eq_getElem _ _ h1,
    List.getD_eq_getElem _ _ h0]
  simp [npDiff, List.getElem_zipWith]

lemma take_map_getD (ts : List ℚ) (c : ℚ) (nS i : ℕ)
    (h : i < min nS ts.length) :
    ((ts.take nS).map (· / c)).getD i 0 = ts.getD i 0 / c := by
  have h1 : i < ts.length := by omega
  have h2 : i < ((ts.take nS).map (· / c)).length := by
    simp [List.length_take]; omega
  have h3 : i < (ts.take nS).length := by simp [List.length_take]; omega
  rw [List.getD_eq_getElem _ _ h2, List.getD_eq_getElem _ _ h1]
  simp

/-- The successive-difference array examined by the pause locator, at a
valid index, in terms of the original array. -/
lemma pause_diffs_getD (ts : List ℚ) (nS i : ℕ)
    (h : i + 1 < min nS ts.length) :
    (npDiff ((ts.take nS).map (· / nsPerSec))).getD i 0 =
      (ts.getD (i + 1) 0 - ts.getD i 0) / nsPerSec := by
  have hlen : ((ts.take nS).map (· / nsPerSec)).length = min nS ts.length := by
    simp [List.length_take]
  rw [npDiff_getD _ _ (by rw [hlen]; omega),
    take_map_getD _ _ _ _ h, take_map_getD _ _ _ _ (by omega)]
  rw [div_sub_div_same]

lemma pause_diffs_length (ts : List ℚ) (nS : ℕ) :
    (npDiff ((ts.take nS).map (· / nsPerSec))).length =
      min nS ts.length - 1 := by
  rw [npDiff_length]
  simp [List.length_take]

lemma pause_findIdx_eq_none (ts : List ℚ) (minD maxD : ℚ) (nS : ℕ)
    (h : ∀ i, ¬ gapQualifies ts minD maxD nS i) :
    (npDiff ((ts.take nS).map (· / nsPerSec))).findIdx?
      (fun d => decide (minD < d) && decide (d < maxD)) = none := by
  rw [List.findIdx?_eq_none_iff]
  intro x hx
  obtain ⟨j, hj, rfl⟩ := List.mem_iff_getElem.mp hx
  have hjq : j + 1 < min nS ts.length := by
    have := pause_diffs_length ts nS
    omega
  have hval : (npDiff ((ts.take nS).map (· / nsPerSec)))[j] =
      (ts.getD (j + 1) 0 - ts.getD j 0) / nsPerSec := by
    rw [← List.getD_eq_getElem _ 0 hj]
    exact pause_diffs_getD ts nS j hjq
  rw [hval]
  have := h j
  simp only [gapQualifies, not_and] at this
  by_contra hcon
  simp only [Bool.and_eq_true, decide_eq_true_eq,
    Bool.not_eq_false] at hcon
  exact (this hjq hcon.1) hcon.2

lemma pause_findIdx_eq_some (ts : List ℚ) (minD maxD : ℚ) (nS i : ℕ)
    (hq : gapQualifies ts minD maxD nS i)
    (hfirst : ∀ j, j < i → ¬ gapQualifies ts minD maxD nS j) :
    (npDiff ((ts.take nS).map (· / nsPerSec))).findIdx?
      (fun d => decide (minD < d) && decide (d < maxD)) = some i := by
  obtain ⟨hi, hlo, hhi⟩ := hq
  have hlen : i < (npDiff ((ts.take nS).map (· / nsPerSec))).length := by
    have := pause_diffs_length ts nS
    omega
  rw [List.findIdx?_eq_some_iff_getElem]
  refine ⟨hlen, ?_, ?_⟩
  · rw [← List.getD_eq_getElem _ 0 hlen, pause_diffs_getD ts nS i hi]
    simp only [Bool.and_eq_true, decide_eq_true_eq]
    exact ⟨hlo, hhi⟩
  · intro j hji
    have hjq : j + 1 < min nS ts.length := by omega
    rw [← List.getD_eq_getElem _ 0 (by omega : j < _),
      pause_diffs_getD ts nS j hjq]
    have := hfirst j hji
    simp only [gapQualifies, not_and] at this
    simp only [Bool.and_eq_true, decide_eq_true_eq, not_and]
    intro h1 h2
    exact (this hjq h1) h2

lemma find_pause_of_no_gap (ts : List ℚ) (minD maxD : ℚ) (nS : ℕ)
    (h : ∀ i, ¬ gapQualifies ts minD maxD nS i) :
    find_acquisition_timing_pause ts minD maxD nS = .error "IndexError" := by
  unfold find_acquisition_timing_pause
  rw [pause_findIdx_eq_none ts minD maxD nS h]

lemma find_pause_of_first_gap (ts : List ℚ) (minD maxD : ℚ) (nS i : ℕ)
    (hq : gapQualifies ts minD maxD nS i)
    (hfirst : ∀ j, j < i → ¬ gapQualifies ts minD maxD nS j) :
    find_acquisition_timing_pause ts minD maxD nS =
      .ok (ts.getD i 0 +
        ((⌊(ts.getD (i + 1) 0 - ts.getD i 0) / 2⌋ : ℤ) : ℚ)) := by
  unfold find_acquisition_timing_pause
  rw [pause_findIdx_eq_some ts minD maxD nS i hq hfirst]

lemma ptp_of_first_gap (hw : List ℚ) (i : ℕ)
    (hq : gapQualifies hw (2/5) 2 100 i)
    (hfirst : ∀ j, j < i → ¬ gapQualifies hw (2/5) 2 100 j) :
    ptp_get_position_timestamps hw =
      .ok ((hw.map (· / nsPerSec)).drop (i + 1)) := by
  unfold ptp_get_position_timestamps
  rw [← List.map_take, pause_findIdx_eq_some hw (2/5) 2 100 i hq hfirst]

lemma ptp_of_no_gap (hw : List ℚ)
    (h : ∀ i, ¬ gapQualifies hw (2/5) 2 100 i) :
    ptp_get_position_timestamps hw = .error "IndexError" := by
  unfold ptp_get_position_timestamps
  rw [← List.map_take, pause_findIdx_eq_none hw (2/5) 2 100 h]

lemma ptp_claimed_of_first_gap (hw : List ℚ) (i : ℕ)
    (hq : gapQualifies hw (2/5) 1 100 i)
    (hfirst : ∀ j, j < i → ¬ gapQualifies hw (2/5) 1 100 j) :
    ptp_get_position_timestamps_claimed hw =
      .ok ((hw.map (· / nsPerSec)).drop (i + 1)) := by
  unfold ptp_get_position_timestamps_claimed
  rw [← List.map_take, pause_findIdx_eq_some hw (2/5) 1 100 i hq hfirst]

/-! ## Claim theorems -/

/-- C6: `find_acquisition_timing_pause` examines successive differences
of the first `n_search` samples, returns the floor-midpoint between the
bounding samples of the earliest gap whose duration in seconds lies
strictly between `min_duration` and `max_duration`, and fails with a
not-found error (`IndexError`) when no gap in the search window
qualifies; on `[0, 1e9, 1.5e9, 2.5e9, 3.5e9, 4.5e9]` ns it returns
`1.25e9` for the window `(0.4, 1.0)` s and `0.5e9` for `(0.4, 1.1)` s
(the earlier qualifying gap wins). -/
theorem C6_find_acquisition_timing_pause_spec :
    (find_acquisition_timing_pause
        [0, 1000000000, 1500000000, 2500000000, 3500000000, 4500000000]
        (2/5) 1 100 = .ok 1250000000) ∧
    (find_acquisition_timing_pause
        [0, 1000000000, 1500000000, 2500000000, 3500000000, 4500000000]
        (2/5) (11/10) 100 = .ok 500000000) ∧
    (∀ (ts : List ℚ) (minD maxD : ℚ) (nS i : ℕ),
      gapQualifies ts minD maxD nS i →
      (∀ j, j < i → ¬ gapQualifies ts minD maxD nS j) →
      find_acquisition_timing_pause ts minD maxD nS =
        .ok (ts.getD i 0 +
          ((⌊(ts.getD (i + 1) 0 - ts.getD i 0) / 2⌋ : ℤ) : ℚ))) ∧
    (∀ (ts : List ℚ) (minD maxD : ℚ) (nS : ℕ),
      (∀ i, ¬ gapQualifies ts minD maxD nS i) →
      find_acquisition_timing_pause ts minD maxD nS =
        .error "IndexError") := by
  refine ⟨?_, ?_, ?_, ?_⟩
  · simp only [find_acquisition_timing_pause, npDiff, nsPerSec,
      List.findIdx?]
    norm_num
    rw [show ([0, 1000000000, 1500000000, 2500000000, 3500000000,
      (4500000000 : ℚ)])[1] = 1000000000 from rfl]
    norm_num
  · simp only [find_acquisition_timing_pause, npDiff, nsPerSec,
      List.findIdx?]
    norm_num
  · intro ts minD maxD nS i hq hfirst
    exact find_pause_of_first_gap ts minD maxD nS i hq hfirst
  · intro ts minD maxD nS h
    exact find_pause_of_no_gap ts minD maxD nS h

/-- Witness for C6: the universally quantified parts applied at
concrete inputs. -/
theorem C6_find_acquisition_timing_pause_spec_witness :
    find_acquisition_timing_pause [0, 1000000000] (2/5) 1 100 =
      .error "IndexError" := by
  apply C6_find_acquisition_timing_pause_spec.2.2.2
  intro i hq
  obtain ⟨h1, h2, h3⟩ := hq
  have hi : i = 0 := by
    simp only [List.length_cons, List.length_nil] at h1
    omega
  subst hi
  simp only [List.getD_cons_succ, List.getD_cons_zero, nsPerSec] at h3
  norm_num at h3

lemma detect_repeat_length (ts : List ℚ) (h : ts ≠ []) :
    (detect_repeat_timestamps ts).length = ts.length := by
  simp only [detect_repeat_timestamps, List.length_cons,
    List.length_zipWith, List.length_tail]
  have : 0 < ts.length := List.length_pos.mpr h
  omega

lemma detect_repeat_getD (ts : List ℚ) (i : ℕ) (h0 : 0 < i)
    (h : i < ts.length) :
    (detect_repeat_timestamps ts).getD i false =
      decide (ts.getD i 0 ≤ ts.getD (i - 1) 0) := by
  obtain ⟨j, rfl⟩ : ∃ j, i = j + 1 := ⟨i - 1, by omega⟩
  simp only [detect_repeat_timestamps, List.getD_cons_succ]
  have hzw : j < (List.zipWith
      (fun a b => decide (b ≤ a)) ts ts.tail).length := by
    simp only [List.length_zipWith, List.length_tail]
    omega
  have hj : j < ts.length := by omega
  have hj1 : j + 1 < ts.length := h
  have hjt : j < ts.tail.length := by simp [List.length_tail]; omega
  rw [List.getD_eq_getElem _ _ hzw, List.getD_eq_getElem _ _ hj1,
    List.getD_eq_getElem _ _ (by omega : j + 1 - 1 < ts.length)]
  simp [List.getElem_zipWith]

/-- C10 (amended): for every *nonempty* timestamp sequence
`detect_repeat_timestamps` returns a boolean array of the same length
whose element 0 is false and whose element `i` (i>0) is true exactly
when `timestamps[i-1] >= timestamps[i]`; on the empty sequence
`np.insert` still prepends the scalar, so the output is the
one-element array `[False]` rather than an empty array; e.g.
`[1,2,2,3,3,3,4]` maps to `[F,F,T,F,T,T,F]`. -/
theorem C10_detect_repeat_timestamps_spec :
    (detect_repeat_timestamps [1, 2, 2, 3, 3, 3, 4] =
      [false, false, true, false, true, true, false]) ∧
    (detect_repeat_timestamps [] = [false]) ∧
    ∀ (ts : List ℚ), ts ≠ [] →
      (detect_repeat_timestamps ts).length = ts.length ∧
      (detect_repeat_timestamps ts).getD 0 true = false ∧
      ∀ i, 0 < i → i < ts.length →
        ((detect_repeat_timestamps ts).getD i false = true ↔
          ts.getD i 0 ≤ ts.getD (i - 1) 0) := by
  refine ⟨by decide, rfl, ?_⟩
  intro ts hne
  refine ⟨detect_repeat_length ts hne, rfl, ?_⟩
  intro i h0 hi
  rw [detect_repeat_getD ts i h0 hi]
  simp

/-- Counterexample for C10 as stated: on the empty sequence the output
has length 1, not 0. -/
theorem C10_detect_repeat_timestamps_counterexample :
    ¬ ((detect_repeat_timestamps []).length = ([] : List ℚ).length) := by
  decide

/-- Witness for C10: the universally quantified part applied to the
concrete sequence `[3, 1]`. -/
theorem C10_detect_repeat_timestamps_spec_witness :
    (detect_repeat_timestamps [3, 1]).length = 2 ∧
    ((detect_repeat_timestamps [3, 1]).getD 1 false = true ↔
      (([3, 1] : List ℚ).getD 1 0 ≤ ([3, 1] : List ℚ).getD 0 0)) := by
  have h := C10_detect_repeat_timestamps_spec.2.2 [3, 1] (by simp)
  exact ⟨h.1, h.2.2 1 (by norm_num) (by norm_num)⟩

/-- C1: the leaf `estimate_camera_to_mcu_lag` matches the spec's
per-`n_breaks` behaviour (median 200 for `n_breaks = 0`, first-sample
difference 100 otherwise), but at its only call site the argument
passed for `n_breaks` is the *number of surviving segments*, so an
epoch whose break detector found exactly one surviving segment takes
the multi-segment branch and gets the first-sample difference 100 --
not the median 200 the claim requires. -/
theorem C1_lag_call_site_single_segment :
    estimate_camera_to_mcu_lag [1000, 2000, 3000] [900, 1800, 2700] 0 =
      200 ∧
    estimate_camera_to_mcu_lag [1000, 2000, 3000] [900, 1800, 2700] 1 =
      100 ∧
    lag_at_call_site [1000, 2000, 3000] [900, 1800, 2700] [1] = 100 ∧
    lag_at_call_site [1000, 2000, 3000] [900, 1800, 2700] [1] ≠ 200 := by
  refine ⟨?_, ?_, ?_, ?_⟩
  · norm_num [estimate_camera_to_mcu_lag, npMedian,
      List.insertionSort, List.orderedInsert]
  · norm_num [estimate_camera_to_mcu_lag]
  · norm_num [lag_at_call_site, estimate_camera_to_mcu_lag]
  · norm_num [lag_at_call_site, estimate_camera_to_mcu_lag]

/-- C8: the unwrap step uses `period = np.iinfo(np.uint16).max = 65535`
although the 16-bit counter wraps modulo 65536, so a wrap from 65535 to
0 advances the unwrapped count by 0, not 1: on the reading
`[65534, 65535, 0]` of true counts `[65534, 65535, 65536]` the code
produces `[65534, 65535, 65535]`, while the same unwrapping with
period 65536 recovers the true sequence. -/
theorem C8_unwrap_period_off_by_one :
    unwrapHWframeCount [65534, 65535, 0] = [65534, 65535, 65535] ∧
    unwrapHWframeCount [65534, 65535, 0] ≠ [65534, 65535, 65536] ∧
    npUnwrapInt [65534, 65535, 0] 65536 = [65534, 65535, 65536] := by
  refine ⟨by decide, by decide, by decide⟩

/-- Counterexample for C4 as stated: the code's precision-clock path
accepts gaps up to 2.0 s, not the 4.2 default 1.0 s. On hardware
timestamps with successive gaps of 0.1, 1.5, 0.1, 0.7, 0.1 seconds the
code trims at the 1.5 s gap while the claimed (0.4, 1.0) window would
trim at the later 0.7 s gap. -/
theorem C4_ptp_window_counterexample :
    ptp_get_position_timestamps
        [0, 100000000, 1600000000, 1700000000, 2400000000, 2500000000] =
      .ok [8/5, 17/10, 12/5, 5/2] ∧
    ptp_get_position_timestamps_claimed
        [0, 100000000, 1600000000, 1700000000, 2400000000, 2500000000] =
      .ok [12/5, 5/2] ∧
    ptp_get_position_timestamps
        [0, 100000000, 1600000000, 1700000000, 2400000000, 2500000000] ≠
      ptp_get_position_timestamps_claimed
        [0, 100000000, 1600000000, 1700000000, 2400000000, 2500000000] := by
  have hgetD : ∀ i : ℕ,
      ([0, 100000000, 1600000000, 1700000000, 2400000000,
        (2500000000 : ℚ)]).getD i 0 =
      [(0 : ℚ), 100000000, 1600000000, 1700000000, 2400000000,
        2500000000].getD i 0 := fun _ => rfl
  have h1 : ptp_get_position_timestamps
      [0, 100000000, 1600000000, 1700000000, 2400000000, 2500000000] =
      .ok (([0, 100000000, 1600000000, 1700000000, 2400000000,
        (2500000000 : ℚ)].map (· / nsPerSec)).drop 2) := by
    apply ptp_of_first_gap _ 1
    · refine ⟨by norm_num, ?_, ?_⟩ <;>
      · rw [show ([0, 100000000, 1600000000, 1700000000, 2400000000,
            (2500000000 : ℚ)]).getD 2 0 = 1600000000 from rfl,
          show ([0, 100000000, 1600000000, 1700000000, 2400000000,
            (2500000000 : ℚ)]).getD 1 0 = 100000000 from rfl]
        norm_num [nsPerSec]
    · intro j hj
      interval_cases j
      rintro ⟨-, h2, -⟩
      rw [show ([0, 100000000, 1600000000, 1700000000, 2400000000,
          (2500000000 : ℚ)]).getD 1 0 = 100000000 from rfl,
        show ([0, 100000000, 1600000000, 1700000000, 2400000000,
          (2500000000 : ℚ)]).getD 0 0 = 0 from rfl] at h2
      norm_num [nsPerSec] at h2
  have h2 : ptp_get_position_timestamps_claimed
      [0, 100000000, 1600000000, 1700000000, 2400000000, 2500000000] =
      .ok (([0, 100000000, 1600000000, 1700000000, 2400000000,
        (2500000000 : ℚ)].map (· / nsPerSec)).drop 4) := by
    apply ptp_claimed_of_first_gap _ 3
    · refine ⟨by norm_num, ?_, ?_⟩ <;>
      · rw [show ([0, 100000000, 1600000000, 1700000000, 2400000000,
            (2500000000 : ℚ)]).getD 4 0 = 2400000000 from rfl,
          show ([0, 100000000, 1600000000, 1700000000, 2400000000,
            (2500000000 : ℚ)]).getD 3 0 = 1700000000 from rfl]
        norm_num [nsPerSec]
    · intro j hj
      interval_cases j <;>
      · rintro ⟨-, ha, hb⟩
        simp only [List.getD_cons_succ, List.getD_cons_zero] at ha hb
        norm_num [nsPerSec] at ha hb
  rw [h1, h2]
  norm_num [nsPerSec]

/-- C4 (amended): on the precision-clock path the camera hardware
timestamps are converted from nanoseconds to seconds; the calibration
pause is the earliest successive difference of the first 100
post-conversion samples lying strictly inside the window
`(0.4, 2.0)` seconds (not the 4.2 default `(0.4, 1.0)`); all samples
at or before the pause are dropped; and no regression is applied: the
returned time index is exactly the converted sequence with that prefix
removed. When no difference qualifies the `IndexError` is not caught. -/
theorem C4_ptp_path_spec :
    (∀ (hw : List ℚ) (i : ℕ), gapQualifies hw (2/5) 2 100 i →
      (∀ j, j < i → ¬ gapQualifies hw (2/5) 2 100 j) →
      ptp_get_position_timestamps hw =
        .ok ((hw.map (· / nsPerSec)).drop (i + 1))) ∧
    (∀ hw : List ℚ, (∀ i, ¬ gapQualifies hw (2/5) 2 100 i) →
      ptp_get_position_timestamps hw = .error "IndexError") :=
  ⟨ptp_of_first_gap, ptp_of_no_gap⟩

/-- Witness for C4: the trimming applied to a concrete three-sample
sequence with a single 1-second gap right at the start. -/
theorem C4_ptp_path_spec_witness :
    ptp_get_position_timestamps [0, 1000000000, 2000000000] =
      .ok (([0, 1000000000, 2000000000].map (· / nsPerSec)).drop 1) := by
  apply C4_ptp_path_spec.1 [0, 1000000000, 2000000000] 0
  · refine ⟨by norm_num, ?_, ?_⟩ <;>
    · rw [show ([0, 1000000000, (2000000000 : ℚ)]).getD 1 0 = 1000000000
          from rfl,
        show ([0, 1000000000, (2000000000 : ℚ)]).getD 0 0 = 0 from rfl]
      norm_num [nsPerSec]
  · intro j hj
    exact absurd hj (Nat.not_lt_zero j)

lemma selectMask_cons_true {α : Type} (x : α) (xs : List α)
    (mask : List Bool) :
    selectMask (x :: xs) (true :: mask) = x :: selectMask xs mask := by
  simp [selectMask]

lemma selectMask_all_true {α : Type} :
    ∀ (xs : List α) (mask : List Bool), (∀ b ∈ mask, b = true) →
      mask.length = xs.length → selectMask xs mask = xs
  | [], [], _, _ => rfl
  | [], _ :: _, _, h => by simp at h
  | _ :: _, [], _, h => by simp at h
  | x :: xs, b :: mask, hall, hlen => by
    have hb : b = true := hall b (List.mem_cons_self b mask)
    subst hb
    rw [selectMask_cons_true]
    rw [selectMask_all_true xs mask
      (fun b hb => hall b (List.mem_cons_of_mem _ hb)) (by simpa using hlen)]

lemma scatterMask_all_true :
    ∀ (m vs : List Bool), (∀ v ∈ vs, v = true) → scatterMask m vs = m
  | [], _, _ => rfl
  | false :: m, vs, hall => by
    rw [scatterMask, scatterMask_all_true m vs hall]
  | true :: m, [], hall => by
    rw [scatterMask, scatterMask_all_true m [] hall]
  | true :: m, v :: vs, hall => by
    have hv : v = true := hall v (List.mem_cons_self v vs)
    subst hv
    rw [scatterMask,
      scatterMask_all_true m vs (fun v hv => hall v (List.mem_cons_of_mem _ hv))]

lemma camera_keep_all_true (camera : List ℚ)
    (h : ∀ x ∈ camera, (0 : ℚ) ≤ x) :
    ∀ b ∈ camera.map (fun t => decide ((-1 : ℚ) < t)), b = true := by
  intro b hb
  obtain ⟨t, ht, rfl⟩ := List.mem_map.mp hb
  simpa using lt_of_lt_of_le (by norm_num) (h t ht)

/-- Counterexample for C9 as stated: (a) on the precision-clock path
the not-found outcome of the pause search is *not* caught: on hardware
timestamps `[0, 1e8]` ns (single 0.1 s gap, no qualifying pause) the
branch fails with `IndexError`; (b) on the fallback path the outcome
is caught and the sentinel -1 is used, but the step emits *no* log
message, so no warning is logged. -/
theorem C9_pause_not_found_counterexample :
    ptp_get_position_timestamps [0, 100000000] = .error "IndexError" ∧
    fallback_pause_step [0, 1/10] = (-1, []) := by
  constructor
  · apply ptp_of_no_gap
    intro i hq
    obtain ⟨h1, h2, -⟩ := hq
    have hi : i = 0 := by
      simp only [List.length_cons, List.length_nil] at h1
      omega
    subst hi
    rw [show ([0, (100000000 : ℚ)]).getD 1 0 = 100000000 from rfl,
      show ([0, (100000000 : ℚ)]).getD 0 0 = 0 from rfl] at h2
    norm_num [nsPerSec] at h2
  · unfold fallback_pause_step
    rw [find_pause_of_no_gap]
    intro i hq
    obtain ⟨h1, h2, -⟩ := hq
    rw [show ([0, (1/10 : ℚ)]).map (· * nsPerSec) = [0, 100000000] by
      norm_num [nsPerSec]] at h1 h2
    have hi : i = 0 := by
      simp only [List.length_cons, List.length_nil] at h1
      omega
    subst hi
    rw [show ([0, (100000000 : ℚ)]).getD 1 0 = 100000000 from rfl,
      show ([0, (100000000 : ℚ)]).getD 0 0 = 0 from rfl] at h2
    norm_num [nsPerSec] at h2

/-- C9 (amended): when no qualifying pause gap exists, the *fallback*
path catches the not-found outcome of the pause locator and uses the
sentinel `pause_mid_time = -1`, under which the pause-trimming step
keeps every sample of the (non-negative) time arrays; no log message
(in particular no warning) is emitted on that branch. On the
precision-clock path the not-found outcome is not caught and the epoch
fails with `IndexError`. -/
theorem C9_pause_not_found_spec :
    (∀ dio : List ℚ,
      (∀ i, ¬ gapQualifies (dio.map (· * nsPerSec)) (2/5) 1 100 i) →
      fallback_pause_step dio = (-1, [])) ∧
    (∀ (dio camera : List ℚ) (frame : List ℤ) (valid : List Bool),
      (∀ x ∈ dio, (0 : ℚ) ≤ x) → (∀ x ∈ camera, (0 : ℚ) ≤ x) →
      camera.length = (selectMask frame valid).length →
      remove_acquisition_timing_pause_non_ptp dio frame camera valid
          (-1) =
        (dio, selectMask frame valid, valid, camera)) ∧
    (∀ hw : List ℚ, (∀ i, ¬ gapQualifies hw (2/5) 2 100 i) →
      ptp_get_position_timestamps hw = .error "IndexError") := by
  refine ⟨?_, ?_, ptp_of_no_gap⟩
  · intro dio h
    unfold fallback_pause_step
    rw [find_pause_of_no_gap _ _ _ _ h]
  · intro dio camera frame valid hdio hcam hlen
    unfold remove_acquisition_timing_pause_non_ptp
    have hkeep := camera_keep_all_true camera hcam
    refine Prod.ext ?_ (Prod.ext ?_ (Prod.ext ?_ ?_)) <;> simp only
    · rw [List.filter_eq_self]
      intro x hx
      simpa using lt_of_lt_of_le (by norm_num) (hdio x hx)
    · rw [selectMask_all_true _ _ hkeep (by simpa using hlen)]
    · rw [scatterMask_all_true _ _ hkeep]
    · rw [List.filter_eq_self]
      intro x hx
      simpa using lt_of_lt_of_le (by norm_num) (hcam x hx)

/-- Witness for C9: the three parts applied at concrete inputs. -/
theorem C9_pause_not_found_spec_witness :
    fallback_pause_step [0, 3] = (-1, []) ∧
    remove_acquisition_timing_pause_non_ptp [1] [5] [2] [true] (-1) =
      ([1], [5], [true], [2]) ∧
    ptp_get_position_timestamps [0] = .error "IndexError" := by
  refine ⟨?_, ?_, ?_⟩
  · apply C9_pause_not_found_spec.1
    intro i hq
    obtain ⟨h1, h2, h3⟩ := hq
    rw [show ([0, (3 : ℚ)]).map (· * nsPerSec) = [0, 3000000000] by
      norm_num [nsPerSec]] at h1 h2 h3
    have hi : i = 0 := by
      simp only [List.length_cons, List.length_nil] at h1
      omega
    subst hi
    rw [show ([0, (3000000000 : ℚ)]).getD 1 0 = 3000000000 from rfl,
      show ([0, (3000000000 : ℚ)]).getD 0 0 = 0 from rfl] at h3
    norm_num [nsPerSec] at h3
  · have h := C9_pause_not_found_spec.2.1 [1] [2] [5] [true]
      (by intro x hx; simp at hx; norm_num [hx])
      (by intro x hx; simp at hx; norm_num [hx])
      (by simp [selectMask])
    rw [h]
    rfl
  · apply C9_pause_not_found_spec.2.2
    intro i hq
    obtain ⟨h1, -, -⟩ := hq
    simp only [List.length_cons, List.length_nil] at h1
    omega

lemma firstSufficient_of_first :
    ∀ (l : List DioChannel) (s e : ℚ) (i : ℕ), i < l.length →
      100 < (epochTicks (l.getD i ⟨"", []⟩) s e).length →
      (∀ j, j < i → (epochTicks (l.getD j ⟨"", []⟩) s e).length ≤ 100) →
      firstSufficient l s e = .ok (epochTicks (l.getD i ⟨"", []⟩) s e)
  | [], _, _, i, hi, _, _ => absurd hi (by simp)
  | c :: rest, s, e, 0, _, hbig, _ => by
    simp only [List.getD_cons_zero] at hbig ⊢
    rw [firstSufficient, if_pos hbig]
  | c :: rest, s, e, i + 1, hi, hbig, hfirst => by
    have hc : (epochTicks c s e).length ≤ 100 := by
      have := hfirst 0 (Nat.succ_pos i)
      simpa using this
    simp only [List.getD_cons_succ] at hbig ⊢
    rw [firstSufficient, if_neg (by omega)]
    exact firstSufficient_of_first rest s e i (by simpa using hi) hbig
      (fun j hj => by simpa using hfirst (j + 1) (by omega))

lemma firstSufficient_insufficient :
    ∀ (l : List DioChannel) (s e : ℚ),
      (∀ c ∈ l, (epochTicks c s e).length ≤ 100) →
      firstSufficient l s e =
        .error "No camera dio has sufficient ticks for this epoch"
  | [], _, _, _ => rfl
  | c :: rest, s, e, h => by
    rw [firstSufficient,
      if_neg (by have := h c (List.mem_cons_self c rest); omega)]
    exact firstSufficient_insufficient rest s e
      (fun d hd => h d (List.mem_cons_of_mem _ hd))

/-- Counterexample for C5 as stated: (a) with two channels whose names
both contain "camera ticks", the per-epoch resolver raises no
ambiguity error -- it returns the in-bounds ticks of the first channel
with more than 100 in-bounds ticks; (b) with a single matching channel
having exactly 100 in-bounds ticks (not fewer than 100), the resolver
nevertheless raises the insufficient-data error, because the code
requires strictly more than 100. -/
theorem C5_dio_channel_counterexample :
    (find_camera_dio_channel_per_epoch
        [⟨"test camera ticks 1", (List.range 150).map (fun n => (n : ℚ))⟩,
         ⟨"test camera ticks 2", []⟩] 0 1000 =
      .ok ((List.range 150).map (fun n => (n : ℚ)))) ∧
    (find_camera_dio_channel_per_epoch
        [⟨"camera ticks", (List.range 100).map (fun n => (n : ℚ))⟩]
        0 1000 =
      .error "No camera dio has sufficient ticks for this epoch") := by
  constructor
  · decide
  · decide

/-- C5 (amended): resolving the camera pulse-train DIO channel for an
epoch (`find_camera_dio_channel_per_epoch`): zero matching channels
give the not-found error; otherwise the in-bounds timestamps of the
first matching channel with strictly more than 100 in-bounds ticks are
returned -- multiple matching channels are not an ambiguity error on
this path; and when no matching channel has more than 100 in-bounds
ticks (exactly 100 included) the insufficient-data error is raised.
The ambiguity error for more than one matching channel is raised by
the boundless resolver `find_camera_dio_channel`. -/
theorem C5_dio_channel_resolution_spec :
    (∀ (channels : List DioChannel) (s e : ℚ),
      cameraMatches channels = [] →
      find_camera_dio_channel_per_epoch channels s e =
        .error "No camera dio channel found by name. Check metadata YAML. Name must contain 'camera ticks'") ∧
    (∀ (channels : List DioChannel) (s e : ℚ) (i : ℕ),
      i < (cameraMatches channels).length →
      100 < (epochTicks ((cameraMatches channels).getD i ⟨"", []⟩)
        s e).length →
      (∀ j, j < i →
        (epochTicks ((cameraMatches channels).getD j ⟨"", []⟩)
          s e).length ≤ 100) →
      find_camera_dio_channel_per_epoch channels s e =
        .ok (epochTicks ((cameraMatches channels).getD i ⟨"", []⟩) s e)) ∧
    (∀ (channels : List DioChannel) (s e : ℚ),
      cameraMatches channels ≠ [] →
      (∀ c ∈ cameraMatches channels, (epochTicks c s e).length ≤ 100) →
      find_camera_dio_channel_per_epoch channels s e =
        .error "No camera dio has sufficient ticks for this epoch") ∧
    (∀ channels : List DioChannel, 1 < (cameraMatches channels).length →
      find_camera_dio_channel channels =
        .error "Multiple camera dio channels found by name. Not implemented for multiple cameras without PTP yet.") := by
  refine ⟨?_, ?_, ?_, ?_⟩
  · intro channels s e hnil
    unfold find_camera_dio_channel_per_epoch
    rw [if_pos (by simp [hnil])]
  · intro channels s e i hi hbig hfirst
    unfold find_camera_dio_channel_per_epoch
    rw [if_neg (by
      simp only [List.isEmpty_iff]
      intro hnil
      rw [hnil] at hi
      simp at hi)]
    exact firstSufficient_of_first _ s e i hi hbig hfirst
  · intro channels s e hne hall
    unfold find_camera_dio_channel_per_epoch
    rw [if_neg (by simpa [List.isEmpty_iff] using hne)]
    exact firstSufficient_insufficient _ s e hall
  · intro channels hgt
    unfold find_camera_dio_channel
    rw [if_pos hgt]

/-- Witness for C5: the four parts applied at concrete channel
registries. -/
theorem C5_dio_channel_resolution_spec_witness :
    (find_camera_dio_channel_per_epoch [⟨"poke", [1, 2]⟩] 0 10 =
      .error "No camera dio channel found by name. Check metadata YAML. Name must contain 'camera ticks'") ∧
    (find_camera_dio_channel_per_epoch
        [⟨"a camera ticks", (List.range 101).map (fun n => (n : ℚ))⟩]
        0 200 =
      .ok (epochTicks
        ⟨"a camera ticks", (List.range 101).map (fun n => (n : ℚ))⟩
        0 200)) ∧
    (find_camera_dio_channel_per_epoch [⟨"b camera ticks", [5]⟩] 0 10 =
      .error "No camera dio has sufficient ticks for this epoch") ∧
    (find_camera_dio_channel
        [⟨"a camera ticks", []⟩, ⟨"b camera ticks", []⟩] =
      .error "Multiple camera dio channels found by name. Not implemented for multiple cameras without PTP yet.") := by
  refine ⟨?_, ?_, ?_, ?_⟩
  · exact C5_dio_channel_resolution_spec.1 _ 0 10 (by decide)
  · exact C5_dio_channel_resolution_spec.2.1 _ 0 200 0 (by decide)
      (by decide) (fun j hj => absurd hj (Nat.not_lt_zero j))
  · exact C5_dio_channel_resolution_spec.2.2.1 _ 0 10 (by decide)
      (by decide)
  · exact C5_dio_channel_resolution_spec.2.2.2 _ (by decide)

/-- C3: `add_position` assigns `position_timestamps_filepath` only
inside the `try` block that first looks up the tracking file, and the
`except IndexError` handler resets only `position_tracking_filepath`.
Hence for an epoch with no tracking file the code does *not* use that
epoch's own video-timestamps file: it reuses the previous epoch's
timestamps filepath (second scenario below, where epoch 2's own
`e2.cameraHWSync` exists but `e1.cameraHWSync` is used), and when the
very first epoch lacks a tracking file the loop fails with
`UnboundLocalError` instead of degrading to the timestamp-only path
(third scenario). -/
theorem C3_missing_tracking_file_stale_timestamps :
    (processEpochsFilepaths none
        [⟨some "e1.videoPositionTracking", some "e1.cameraHWSync"⟩,
         ⟨none, some "e2.cameraHWSync"⟩] =
      [(some "e1.videoPositionTracking", .ok "e1.cameraHWSync"),
       (none, .ok "e1.cameraHWSync")]) ∧
    (processEpochsFilepaths none [⟨none, some "e1.cameraHWSync"⟩] =
      [(none, .error "UnboundLocalError")]) := by
  exact ⟨rfl, rfl⟩

lemma find?_eq_some_of_mem_keys {α : Type} (table : List (ℚ × α)) (k : ℚ)
    (hk : k ∈ table.map Prod.fst) :
    ∃ q, table.find? (fun q => decide (q.1 = k)) = some q ∧ q.1 = k := by
  obtain ⟨p, hp, rfl⟩ := List.mem_map.mp hk
  have hs : (table.find? (fun q => decide (q.1 = p.1))).isSome := by
    rw [List.find?_isSome]
    exact ⟨p, hp, by simp⟩
  obtain ⟨q, hq⟩ := Option.isSome_iff_exists.mp hs
  exact ⟨q, hq, by simpa using List.find?_some hq⟩

lemma filterMap_first_keys {α : Type} (table : List (ℚ × α)) :
    ∀ (ks : List ℚ), (∀ k ∈ ks, k ∈ table.map Prod.fst) →
      (ks.filterMap (fun k =>
        (table.find? (fun q => decide (q.1 = k))).map
          (fun q => (k, q.2)))).map Prod.fst = ks
  | [], _ => rfl
  | k :: ks, h => by
    obtain ⟨q, hq, -⟩ := find?_eq_some_of_mem_keys table k
      (h k (List.mem_cons_self k ks))
    simp only [List.filterMap_cons, hq, Option.map_some', List.map_cons]
    rw [filterMap_first_keys table ks
      (fun j hj => h j (List.mem_cons_of_mem _ hj))]

lemma groupbyFirst_map_fst {α : Type} (table : List (ℚ × α)) :
    (groupbyFirst table).map Prod.fst =
      ((table.map Prod.fst).dedup).insertionSort (· ≤ ·) := by
  unfold groupbyFirst
  apply filterMap_first_keys
  intro k hk
  exact List.mem_dedup.mp
    ((List.perm_insertionSort (· ≤ ·) ((table.map Prod.fst).dedup)).mem_iff.mp hk)

lemma groupbyFirst_sorted {α : Type} (table : List (ℚ × α)) :
    ((groupbyFirst table).map Prod.fst).Sorted (· < ·) := by
  rw [groupbyFirst_map_fst]
  have hs : ((((table.map Prod.fst).dedup)).insertionSort
      (· ≤ ·)).Sorted (· ≤ ·) :=
    List.sorted_insertionSort (· ≤ ·) _
  have hn : ((((table.map Prod.fst).dedup)).insertionSort
      (· ≤ ·)).Nodup :=
    ((List.perm_insertionSort (· ≤ ·) _).nodup_iff).mpr
      (List.nodup_dedup _)
  exact hs.lt_of_le hn

lemma groupbyFirst_find {α : Type} (table : List (ℚ × α)) :
    ∀ p ∈ groupbyFirst table,
      table.find? (fun q => decide (q.1 = p.1)) = some p := by
  intro p hp
  unfold groupbyFirst at hp
  obtain ⟨k, hk, hsome⟩ := List.mem_filterMap.mp hp
  obtain ⟨q, hq, hpq⟩ := Option.map_eq_some'.mp hsome
  have hqk : q.1 = k := by simpa using List.find?_some hq
  have hqp : q = p := by
    rw [← hpq]
    exact Prod.ext hqk rfl
  subst hqp
  rw [hqk]
  exact hq

lemma groupbyFirst_keys_iff {α : Type} (table : List (ℚ × α)) (k : ℚ) :
    k ∈ (groupbyFirst table).map Prod.fst ↔ k ∈ table.map Prod.fst := by
  rw [groupbyFirst_map_fst,
    (List.perm_insertionSort (· ≤ ·) _).mem_iff, List.mem_dedup]

/-- C2: on the fallback path, the per-segment corrected times are
concatenated across segments in the given segment-id order
(`concatCorrected`), set positionally as the new time index, and
duplicate timestamps are collapsed by keeping the first occurrence's
row, with no failure path; the resulting time index is strictly
increasing (monotone with no duplicate values) and its set of values
is exactly the set of concatenated corrected times. -/
theorem C2_fallback_assemble_spec :
    ∀ (α : Type) (ids labels : List ℕ)
      (frame_count camera_systime : List ℚ) (lag : ℚ) (rows : List α),
      ((fallback_assemble ids labels frame_count camera_systime lag
        rows).map Prod.fst).Sorted (· < ·) ∧
      (∀ p ∈ fallback_assemble ids labels frame_count camera_systime lag
          rows,
        ((concatCorrected ids labels frame_count camera_systime lag).zip
          rows).find? (fun q => decide (q.1 = p.1)) = some p) ∧
      (∀ k : ℚ,
        k ∈ (fallback_assemble ids labels frame_count camera_systime lag
          rows).map Prod.fst ↔
        k ∈ ((concatCorrected ids labels frame_count camera_systime
          lag).zip rows).map Prod.fst) := by
  intro α ids labels frame_count camera_systime lag rows
  refine ⟨groupbyFirst_sorted _, groupbyFirst_find _, fun k =>
    groupbyFirst_keys_iff _ k⟩

/-! ### Run-labelling lemmas for claim C7 -/

lemma labelRuns_length (xs : List Bool) :
    (labelRuns xs).length = xs.length := by
  simp [labelRuns]

lemma labelRuns_getD (xs : List Bool) (i : ℕ) (h : i < xs.length) :
    (labelRuns xs).getD i 0 =
      if xs.getD i false then runsBefore xs (i + 1) else 0 := by
  have hl : i < (labelRuns xs).length := by rw [labelRuns_length]; omega
  rw [List.getD_eq_getElem _ _ hl]
  simp [labelRuns]

lemma runsBefore_succ (xs : List Bool) (n : ℕ) :
    runsBefore xs (n + 1) =
      runsBefore xs n + (if runStart xs n then 1 else 0) := by
  unfold runsBefore
  rw [List.range_succ, List.filter_append]
  by_cases h : runStart xs n <;> simp [h]

lemma runsBefore_mono (xs : List Bool) {m n : ℕ} (h : m ≤ n) :
    runsBefore xs m ≤ runsBefore xs n := by
  induction n, h using Nat.le_induction with
  | base => exact le_refl _
  | succ n hmn ih =>
    rw [runsBefore_succ]
    omega

lemma runsBefore_pos (xs : List Bool) (i : ℕ)
    (h : xs.getD i false = true) : 0 < runsBefore xs (i + 1) := by
  induction i with
  | zero =>
    rw [runsBefore_succ]
    have : runStart xs 0 = true := h
    simp [this]
  | succ j ih =>
    rw [runsBefore_succ]
    by_cases hs : runStart xs (j + 1)
    · simp [hs]
    · have hj : xs.getD j false = true := by
        unfold runStart at hs
        simp only [h, Bool.true_and, Bool.not_eq_true'] at hs
        simpa using hs
      have := ih hj
      omega

lemma runStart_succ (xs : List Bool) (i : ℕ) :
    runStart xs (i + 1) = (xs.getD (i + 1) false && !(xs.getD i false)) :=
  rfl

lemma runsBefore_eq_of_all_true (xs : List Bool) {i j : ℕ} (hij : i ≤ j)
    (hall : ∀ m, i ≤ m → m ≤ j → xs.getD m false = true) :
    runsBefore xs (i + 1) = runsBefore xs (j + 1) := by
  induction j, hij using Nat.le_induction with
  | base => rfl
  | succ j hij ih =>
    rw [runsBefore_succ xs (j + 1)]
    have hnostart : runStart xs (j + 1) = false := by
      rw [runStart_succ, hall j hij (by omega)]
      simp
    rw [hnostart, if_neg (by simp)]
    rw [Nat.add_zero]
    exact ih (fun m hm1 hm2 => hall m hm1 (by omega))

lemma runsBefore_lt_of_gap (xs : List Bool) {i m j : ℕ} (him : i ≤ m)
    (hmj : m ≤ j) (hm : xs.getD m false = false)
    (hj : xs.getD j false = true) :
    runsBefore xs (i + 1) < runsBefore xs (j + 1) := by
  have hmj' : m < j := by
    rcases Nat.lt_or_ge m j with h | h
    · exact h
    · have hmeq : m = j := by omega
      rw [hmeq, hj] at hm
      exact absurd hm (by simp)
  have hex : ∃ u, m < u ∧ xs.getD u false = true := ⟨j, hmj', hj⟩
  classical
  obtain ⟨hmt, hxt⟩ := Nat.find_spec hex
  have htle : Nat.find hex ≤ j := Nat.find_min' hex ⟨hmj', hj⟩
  obtain ⟨s, hs⟩ : ∃ s, Nat.find hex = s + 1 := ⟨Nat.find hex - 1, by omega⟩
  have hstart : runStart xs (Nat.find hex) = true := by
    rw [hs, runStart_succ]
    have hxt' : xs.getD (s + 1) false = true := by rw [← hs]; exact hxt
    have hxs : xs.getD s false = false := by
      rcases Nat.lt_or_ge s m with hsm | hsm
      · omega
      · rcases Nat.eq_or_lt_of_le hsm with heq | hlt
        · rw [heq] at hm
          exact hm
        · have hns := Nat.find_min hex (m := s) (by omega)
          simp only [not_and] at hns
          simpa using hns hlt
    rw [hxt', hxs]
    rfl
  have h1 : runsBefore xs (i + 1) ≤ runsBefore xs (Nat.find hex) :=
    runsBefore_mono xs (by omega)
  have h2 : runsBefore xs (Nat.find hex + 1) =
      runsBefore xs (Nat.find hex) + 1 := by
    rw [runsBefore_succ, hstart, if_pos rfl]
  have h3 : runsBefore xs (Nat.find hex + 1) ≤ runsBefore xs (j + 1) :=
    runsBefore_mono xs (by omega)
  omega

lemma labels_eq_iff_all_true (xs : List Bool) {i j : ℕ} (hij : i ≤ j)
    (hxj : xs.getD j false = true) :
    runsBefore xs (i + 1) = runsBefore xs (j + 1) ↔
      ∀ m, i ≤ m → m ≤ j → xs.getD m false = true := by
  constructor
  · intro heq
    by_contra hcon
    push_neg at hcon
    obtain ⟨m, hm1, hm2, hm3⟩ := hcon
    have hmf : xs.getD m false = false := by
      simpa using hm3
    have := runsBefore_lt_of_gap xs hm1 hm2 hmf hxj
    omega
  · exact runsBefore_eq_of_all_true xs hij

lemma countP_range_three_iff (p : ℕ → Bool) (n : ℕ) :
    2 < (List.range n).countP p ↔
      ∃ a b c, a < b ∧ b < c ∧ c < n ∧
        p a = true ∧ p b = true ∧ p c = true := by
  rw [List.countP_eq_length_filter]
  constructor
  · intro h
    have hpw : ((List.range n).filter p).Pairwise (· < ·) :=
      List.Pairwise.sublist (List.filter_sublist _)
        (List.pairwise_lt_range n)
    have h0 : 0 < ((List.range n).filter p).length := by omega
    have h1 : 1 < ((List.range n).filter p).length := by omega
    have h2 : 2 < ((List.range n).filter p).length := h
    have hmem : ∀ (k : ℕ) (hk : k < ((List.range n).filter p).length),
        ((List.range n).filter p)[k] < n ∧
          p (((List.range n).filter p)[k]) = true := by
      intro k hk
      have hm := List.getElem_mem hk
      have := List.mem_filter.mp hm
      exact ⟨List.mem_range.mp this.1, this.2⟩
    refine ⟨((List.range n).filter p)[0], ((List.range n).filter p)[1],
      ((List.range n).filter p)[2], ?_, ?_, ?_, ?_, ?_, ?_⟩
    · exact List.pairwise_iff_getElem.mp hpw 0 1 h0 h1 (by omega)
    · exact List.pairwise_iff_getElem.mp hpw 1 2 h1 h2 (by omega)
    · exact (hmem 2 h2).1
    · exact (hmem 0 h0).2
    · exact (hmem 1 h1).2
    · exact (hmem 2 h2).2
  · rintro ⟨a, b, c, hab, hbc, hcn, hpa, hpb, hpc⟩
    have hsub : [a, b, c] ⊆ (List.range n).filter p := by
      intro x hx
      simp only [List.mem_cons, List.not_mem_nil, or_false] at hx
      rcases hx with rfl | rfl | rfl <;>
        exact List.mem_filter.mpr
          ⟨List.mem_range.mpr (by omega), by assumption⟩
    have hnd : ([a, b, c] : List ℕ).Nodup := by
      have hlt : ([a, b, c] : List ℕ).Pairwise (· < ·) := by
        refine List.pairwise_cons.mpr ⟨?_, List.pairwise_cons.mpr
          ⟨?_, List.pairwise_singleton _ _⟩⟩
        · intro x hx
          simp only [List.mem_cons, List.not_mem_nil, or_false,
            List.mem_singleton] at hx
          rcases hx with rfl | rfl <;> omega
        · intro x hx
          simp only [List.mem_singleton] at hx
          subst hx
          omega
      exact hlt.imp Nat.ne_of_lt
    have := (List.subperm_of_subset hnd hsub).length_le
    simpa using this

lemma count_labelRuns_eq_countP (xs : List Bool) (k : ℕ) :
    (labelRuns xs).count k =
      (List.range xs.length).countP
        (fun i => (if xs.getD i false then runsBefore xs (i + 1) else 0)
          == k) := by
  rw [labelRuns, List.count_eq_countP, List.countP_map]
  rfl

lemma count_gt_two_iff_inLong (xs : List Bool) (i : ℕ)
    (hxi : xs.getD i false = true) :
    2 < (labelRuns xs).count (runsBefore xs (i + 1)) ↔
      inLongFlaggedRun xs i := by
  have hkpos : 0 < runsBefore xs (i + 1) := runsBefore_pos xs i hxi
  rw [count_labelRuns_eq_countP, countP_range_three_iff]
  constructor
  · rintro ⟨a, b, c, hab, hbc, hcn, hpa, hpb, hpc⟩
    have hdec : ∀ u,
        ((if xs.getD u false then runsBefore xs (u + 1) else 0) ==
          runsBefore xs (i + 1)) = true →
        xs.getD u false = true ∧
          runsBefore xs (u + 1) = runsBefore xs (i + 1) := by
      intro u hu
      by_cases h : xs.getD u false
      · rw [if_pos h] at hu
        exact ⟨h, by simpa using hu⟩
      · rw [if_neg h] at hu
        have : (0 : ℕ) = runsBefore xs (i + 1) := by simpa using hu
        omega
    obtain ⟨hxa, hka⟩ := hdec a hpa
    obtain ⟨hxc, hkc⟩ := hdec c hpc
    have hu1 : min i a ≤ i := min_le_left _ _
    have hv1 : i ≤ max i c := le_max_left _ _
    have hxv : xs.getD (max i c) false = true := by
      rcases max_choice i c with h | h <;> rw [h]
      · exact hxi
      · exact hxc
    have hkv : runsBefore xs (max i c + 1) = runsBefore xs (i + 1) := by
      rcases max_choice i c with h | h <;> rw [h]
      · exact hkc
    have hku : runsBefore xs (min i a + 1) = runsBefore xs (i + 1) := by
      rcases min_choice i a with h | h <;> rw [h]
      · exact hka
    have hall : ∀ m, min i a ≤ m → m ≤ max i c →
        xs.getD m false = true :=
      (labels_eq_iff_all_true xs (by omega) hxv).mp (by rw [hku, hkv])
    have hspan : min i a + 2 ≤ max i c := by
      have h1 : min i a ≤ a := min_le_right _ _
      have h2 : c ≤ max i c := le_max_right _ _
      omega
    by_cases hcase : i + 2 ≤ max i c
    · exact ⟨i, le_refl i, by omega,
        hall i hu1 hv1,
        hall (i + 1) (by omega) (by omega),
        hall (i + 2) (by omega) (by omega)⟩
    · refine ⟨max i c - 2, by omega, by omega, ?_, ?_, ?_⟩
      · exact hall (max i c - 2) (by omega) (by omega)
      · have h21 : max i c - 2 + 1 = max i c - 1 := by omega
        rw [h21]
        exact hall (max i c - 1) (by omega) (by omega)
      · have h22 : max i c - 2 + 2 = max i c := by omega
        rw [h22]
        exact hall (max i c) (by omega) (by omega)
  · rintro ⟨a, hai, hia, ha0, ha1, ha2⟩
    have hlen : a + 2 < xs.length := by
      by_contra hcon
      push_neg at hcon
      rw [List.getD_eq_default xs false hcon] at ha2
      exact absurd ha2 (by simp)
    have hall : ∀ m, a ≤ m → m ≤ a + 2 → xs.getD m false = true := by
      intro m h1 h2
      rcases (by omega : m = a ∨ m = a + 1 ∨ m = a + 2) with
        rfl | rfl | rfl <;> assumption
    have hwin : ∀ u v, a ≤ u → u ≤ v → v ≤ a + 2 →
        runsBefore xs (u + 1) = runsBefore xs (v + 1) :=
      fun u v h1 h2 h3 => runsBefore_eq_of_all_true xs h2
        (fun m hm1 hm2 => hall m (by omega) (by omega))
    have heqk : ∀ u, a ≤ u → u ≤ a + 2 →
        runsBefore xs (u + 1) = runsBefore xs (i + 1) := by
      intro u h1 h2
      rcases Nat.le_total u i with h | h
      · exact hwin u i h1 h (by omega)
      · exact (hwin i u hai h h2).symm
    refine ⟨a, a + 1, a + 2, by omega, by omega, hlen, ?_, ?_, ?_⟩
    · rw [if_pos ha0]
      simpa using heqk a (le_refl a) (by omega)
    · rw [if_pos ha1]
      simpa using heqk (a + 1) (by omega) (by omega)
    · rw [if_pos ha2]
      simpa using heqk (a + 2) (by omega) (by omega)

lemma mem_survivingRepeatIds (U : List Bool) (k : ℕ) :
    k ∈ survivingRepeatIds U ↔
      k ∈ labelRuns U ∧ k ≠ 0 ∧ 2 < (labelRuns U).count k := by
  unfold survivingRepeatIds
  rw [List.mem_filter]
  rw [uniqueSorted, (List.perm_insertionSort (· ≤ ·)
    (labelRuns U).dedup).mem_iff, List.mem_dedup]
  simp [and_assoc]

lemma filteredFlags_length (U : List Bool) :
    (filteredFlags U).length = U.length := by
  simp [filteredFlags]

lemma filteredFlags_getD (U : List Bool) (i : ℕ) (hi : i < U.length) :
    (filteredFlags U).getD i false = decide (inLongFlaggedRun U i) := by
  have hl : i < (filteredFlags U).length := by
    rw [filteredFlags_length]
    omega
  rw [List.getD_eq_getElem _ _ hl]
  simp only [filteredFlags, List.getElem_map, List.getElem_range]
  by_cases hU : U.getD i false = true
  · rw [hU, Bool.true_and]
    have hlab : (labelRuns U).getD i 0 = runsBefore U (i + 1) := by
      rw [labelRuns_getD U i hi, if_pos hU]
    rw [hlab, decide_eq_decide]
    rw [mem_survivingRepeatIds]
    constructor
    · rintro ⟨-, -, hcount⟩
      exact (count_gt_two_iff_inLong U i hU).mp hcount
    · intro hlong
      refine ⟨?_, by
        have := runsBefore_pos U i hU
        omega, (count_gt_two_iff_inLong U i hU).mpr hlong⟩
      rw [← hlab]
      rw [List.getD_eq_getElem _ _ (by rw [labelRuns_length]; omega)]
      exact List.getElem_mem _
  · have hUf : U.getD i false = false := by simpa using hU
    rw [hUf, Bool.false_and]
    have hnotlong : ¬ inLongFlaggedRun U i := by
      rintro ⟨a, ha1, ha2, h0, h1, h2⟩
      have : U.getD i false = true := by
        rcases (by omega : i = a ∨ i = a + 1 ∨ i = a + 2) with
          rfl | rfl | rfl <;> assumption
      rw [this] at hUf
      exact absurd hUf (by simp)
    simp [hnotlong]

lemma find_large_frame_jumps_length (fc : List ℤ) (h : fc ≠ []) :
    (find_large_frame_jumps fc 15).length = fc.length := by
  simp only [find_large_frame_jumps, List.length_cons,
    List.length_zipWith, List.length_tail]
  have : 0 < fc.length := List.length_pos.mpr h
  omega

lemma find_large_frame_jumps_getD (fc : List ℤ) (i : ℕ) (h0 : 0 < i)
    (hi : i < fc.length) :
    (find_large_frame_jumps fc 15).getD i false =
      decide ((15 : ℤ) < fc.getD i 0 - fc.getD (i - 1) 0) := by
  obtain ⟨j, rfl⟩ : ∃ j, i = j + 1 := ⟨i - 1, by omega⟩
  simp only [find_large_frame_jumps, List.getD_cons_succ]
  have hzw : j < (List.zipWith
      (fun a b => decide ((15 : ℤ) < b - a)) fc fc.tail).length := by
    simp only [List.length_zipWith, List.length_tail]
    omega
  rw [List.getD_eq_getElem _ _ hzw,
    List.getD_eq_getElem _ _ (by omega : j + 1 < fc.length),
    List.getD_eq_getElem _ _ (by omega : j + 1 - 1 < fc.length)]
  simp [List.getElem_zipWith]

lemma unionFlags_length (ts : List ℚ) (fc : List ℤ)
    (hlen : fc.length = ts.length) (hne : ts ≠ []) :
    (unionFlags ts fc).length = ts.length := by
  have hfc : fc ≠ [] := by
    intro h
    rw [h] at hlen
    exact hne (List.length_eq_zero.mp (by simpa using hlen.symm))
  simp only [unionFlags, List.length_zipWith,
    detect_repeat_length ts hne, find_large_frame_jumps_length fc hfc,
    hlen, min_self]

lemma unionFlags_getD (ts : List ℚ) (fc : List ℤ)
    (hlen : fc.length = ts.length) (hne : ts ≠ []) (i : ℕ)
    (hi : i < ts.length) :
    (unionFlags ts fc).getD i false =
      ((detect_repeat_timestamps ts).getD i false ||
        (find_large_frame_jumps fc 15).getD i false) := by
  have hfc : fc ≠ [] := by
    intro h
    rw [h] at hlen
    exact hne (List.length_eq_zero.mp (by simpa using hlen.symm))
  have hU : i < (unionFlags ts fc).length := by
    rw [unionFlags_length ts fc hlen hne]
    omega
  have h1 : i < (detect_repeat_timestamps ts).length := by
    rw [detect_repeat_length ts hne]
    omega
  have h2 : i < (find_large_frame_jumps fc 15).length := by
    rw [find_large_frame_jumps_length fc hfc]
    omega
  rw [List.getD_eq_getElem _ _ hU, List.getD_eq_getElem _ _ h1,
    List.getD_eq_getElem _ _ h2]
  simp [unionFlags, List.getElem_zipWith]

lemma keptFlags_length (U : List Bool) :
    ((filteredFlags U).map (fun b => !b)).length = U.length := by
  simp [filteredFlags_length]

lemma keptFlags_getD (U : List Bool) (i : ℕ) (hi : i < U.length) :
    ((filteredFlags U).map (fun b => !b)).getD i false =
      !(decide (inLongFlaggedRun U i)) := by
  have hl : i < ((filteredFlags U).map (fun b => !b)).length := by
    rw [keptFlags_length]
    omega
  rw [List.getD_eq_getElem _ _ hl]
  simp only [List.getElem_map]
  rw [← List.getD_eq_getElem _ false
    (by rw [filteredFlags_length]; omega : i < (filteredFlags U).length)]
  rw [filteredFlags_getD U i hi]

lemma finalLabels_zero_iff (U : List Bool) (i : ℕ) (hi : i < U.length) :
    ((labelRuns ((filteredFlags U).map (fun b => !b))).getD i 0 = 0 ↔
      inLongFlaggedRun U i) := by
  have hiK : i < ((filteredFlags U).map (fun b => !b)).length := by
    rw [keptFlags_length]
    omega
  rw [labelRuns_getD _ i hiK, keptFlags_getD U i hi]
  by_cases h : inLongFlaggedRun U i
  · simp [h]
  · rw [if_pos (by simp [h])]
    simp only [h, iff_false]
    have hKt : ((filteredFlags U).map (fun b => !b)).getD i false = true := by
      rw [keptFlags_getD U i hi]
      simp [h]
    have hpos := runsBefore_pos _ i hKt
    omega

lemma finalLabels_ne_zero_iff (U : List Bool) (i : ℕ) (hi : i < U.length) :
    ((labelRuns ((filteredFlags U).map (fun b => !b))).getD i 0 ≠ 0 ↔
      ((filteredFlags U).map (fun b => !b)).getD i false = true) := by
  rw [ne_eq, finalLabels_zero_iff U i hi, keptFlags_getD U i hi]
  by_cases h : inLongFlaggedRun U i <;> simp [h]

lemma finalLabels_pos_val (U : List Bool) (i : ℕ) (hi : i < U.length)
    (h : (labelRuns ((filteredFlags U).map (fun b => !b))).getD i 0 ≠ 0) :
    (labelRuns ((filteredFlags U).map (fun b => !b))).getD i 0 =
      runsBefore ((filteredFlags U).map (fun b => !b)) (i + 1) := by
  have hiK : i < ((filteredFlags U).map (fun b => !b)).length := by
    rw [keptFlags_length]
    omega
  have hKt := (finalLabels_ne_zero_iff U i hi).mp h
  rw [labelRuns_getD _ i hiK, if_pos hKt]

/-- C7: segmentation takes the union of the repeated-timestamp flags
and the large-frame-jump flags; a position stays flagged after
filtering exactly when it lies in a contiguous flagged run of length
strictly greater than 2 (shorter runs are un-flagged); the returned
per-sample array labels flagged samples 0 and gives every maximal
contiguous span of non-flagged samples one positive label, constant on
the span, increasing left-to-right, and distinct across spans; the
second component is the sorted list of positive labels present. -/
theorem C7_detect_segmentation_spec :
    ∀ (trodes_time : List ℚ) (frame_count : List ℤ) (L ids : List ℕ),
      frame_count.length = trodes_time.length → trodes_time ≠ [] →
      detect_trodes_time_repeats_or_frame_jumps trodes_time frame_count =
        (L, ids) →
      ((unionFlags trodes_time frame_count).getD 0 false = false ∧
       ∀ i, 0 < i → i < trodes_time.length →
        (unionFlags trodes_time frame_count).getD i false =
          (decide (trodes_time.getD i 0 ≤ trodes_time.getD (i - 1) 0) ||
           decide ((15 : ℤ) <
             frame_count.getD i 0 - frame_count.getD (i - 1) 0))) ∧
      L.length = trodes_time.length ∧
      (∀ i, i < trodes_time.length →
        (L.getD i 0 = 0 ↔
          inLongFlaggedRun (unionFlags trodes_time frame_count) i)) ∧
      (∀ i j, i ≤ j → j < trodes_time.length →
        L.getD i 0 ≠ 0 → L.getD j 0 ≠ 0 →
        (L.getD i 0 = L.getD j 0 ↔
          ∀ m, i ≤ m → m ≤ j → L.getD m 0 ≠ 0)) ∧
      (∀ i j, i ≤ j → j < trodes_time.length →
        L.getD i 0 ≠ 0 → L.getD j 0 ≠ 0 → L.getD i 0 ≤ L.getD j 0) ∧
      ids.Sorted (· < ·) ∧
      (∀ k, k ∈ ids ↔ (k ≠ 0 ∧ k ∈ L)) := by
  intro ts fc L ids hlen hne heq
  have hn : 0 < ts.length := List.length_pos.mpr hne
  have hL : L = labelRuns
      ((filteredFlags (unionFlags ts fc)).map (fun b => !b)) := by
    have := congrArg Prod.fst heq
    simpa [detect_trodes_time_repeats_or_frame_jumps] using this.symm
  have hids : ids = (uniqueSorted L).filter (fun id => decide (id ≠ 0)) := by
    have := congrArg Prod.snd heq
    simp only [detect_trodes_time_repeats_or_frame_jumps] at this
    rw [← this, hL]
  have hUlen : (unionFlags ts fc).length = ts.length :=
    unionFlags_length ts fc hlen hne
  refine ⟨⟨?_, ?_⟩, ?_, ?_, ?_, ?_, ?_, ?_⟩
  · rw [unionFlags_getD ts fc hlen hne 0 hn]
    rfl
  · intro i h0 hi
    rw [unionFlags_getD ts fc hlen hne i hi,
      detect_repeat_getD ts i h0 hi,
      find_large_frame_jumps_getD fc i h0 (by omega)]
  · rw [hL, labelRuns_length, keptFlags_length, hUlen]
  · intro i hi
    rw [hL]
    exact finalLabels_zero_iff (unionFlags ts fc) i (by omega)
  · intro i j hij hj hni hnj
    rw [hL] at hni hnj ⊢
    have hiu : i < (unionFlags ts fc).length := by omega
    have hju : j < (unionFlags ts fc).length := by omega
    have hKj := (finalLabels_ne_zero_iff (unionFlags ts fc) j hju).mp hnj
    rw [finalLabels_pos_val (unionFlags ts fc) i hiu hni,
      finalLabels_pos_val (unionFlags ts fc) j hju hnj]
    rw [labels_eq_iff_all_true _ hij hKj]
    constructor
    · intro hall m hm1 hm2
      rw [finalLabels_ne_zero_iff (unionFlags ts fc) m (by omega)]
      exact hall m hm1 hm2
    · intro hall m hm1 hm2
      exact (finalLabels_ne_zero_iff (unionFlags ts fc) m
        (by omega)).mp (hall m hm1 hm2)
  · intro i j hij hj hni hnj
    rw [hL] at hni hnj ⊢
    have hiu : i < (unionFlags ts fc).length := by omega
    have hju : j < (unionFlags ts fc).length := by omega
    rw [finalLabels_pos_val (unionFlags ts fc) i hiu hni,
      finalLabels_pos_val (unionFlags ts fc) j hju hnj]
    exact runsBefore_mono _ (by omega)
  · rw [hids]
    have hs : (uniqueSorted L).Sorted (· ≤ ·) :=
      List.sorted_insertionSort (· ≤ ·) _
    have hnd : (uniqueSorted L).Nodup :=
      ((List.perm_insertionSort (· ≤ ·) _).nodup_iff).mpr
        (List.nodup_dedup _)
    exact List.Pairwise.sublist (List.filter_sublist _) (hs.lt_of_le hnd)
  · intro k
    rw [hids, List.mem_filter]
    rw [uniqueSorted, (List.perm_insertionSort (· ≤ ·) L.dedup).mem_iff,
      List.mem_dedup]
    simp [and_comm]

/-- Witness for C7: the segmentation properties applied to the
concrete epoch of the repository's unit test (one single-sample repeat
and one single-sample frame jump, both un-flagged, one surviving
segment). -/
theorem C7_detect_segmentation_spec_witness :
    ([1] : List ℕ).Sorted (· < ·) ∧
    ((1 : ℕ) ∈ ([1] : List ℕ) ↔
      ((1 : ℕ) ≠ 0 ∧ (1 : ℕ) ∈ ([1, 1, 1, 1, 1, 1] : List ℕ))) ∧
    (([1, 1, 1, 1, 1, 1] : List ℕ).getD 2 0 = 0 ↔
      inLongFlaggedRun
        (unionFlags [1, 2, 2, 3, 4, 5] [0, 10, 20, 30, 40, 1000]) 2) := by
  have h := C7_detect_segmentation_spec [1, 2, 2, 3, 4, 5]
    [0, 10, 20, 30, 40, 1000] [1, 1, 1, 1, 1, 1] [1]
    (by decide) (by decide) (by decide)
  exact ⟨h.2.2.2.2.2.1, h.2.2.2.2.2.2 1, h.2.2.1 2 (by decide)⟩

/-- Witness for C2: the keep-first-occurrence property applied to a
concrete one-segment epoch (frames `[0, 1]`, camera times `[10, 20]`,
rows `[7, 8]`, lag 0, corrected times `[10, 20]`). -/
theorem C2_fallback_assemble_spec_witness :
    ((concatCorrected [1] [1, 1] [0, 1] [10, 20] 0).zip
        ([7, 8] : List ℕ)).find?
      (fun q => decide (q.1 = (10 : ℚ))) = some (10, 7) := by
  have heval : fallback_assemble [1] [1, 1] [0, 1] [10, 20] 0
      ([7, 8] : List ℕ) = [(10, 7), (20, 8)] := by
    norm_num [fallback_assemble, concatCorrected,
      correct_timestamps_for_camera_to_mcu_lag, linregress, selectMask,
      groupbyFirst, List.insertionSort, List.orderedInsert, List.find?,
      List.dedup_cons_of_not_mem, List.dedup_cons_of_mem,
      List.filterMap]
  have hmem : ((10 : ℚ), (7 : ℕ)) ∈
      fallback_assemble [1] [1, 1] [0, 1] [10, 20] 0 [7, 8] := by
    rw [heval]
    simp
  have h := (C2_fallback_assemble_spec ℕ [1] [1, 1] [0, 1] [10, 20] 0
    [7, 8]).2.1 (10, 7) hmem
  simpa using h

end SpikeGadgets
